import Mathlib

/-!
Shallow embedding of the BM25-like retrieval core of the ChatNot repository.

The repository contains two variants of the same engine:
  * `src/Chat_Not.py` : `tokenize` (lines 135-136), the module-level index
    build over `KB` (lines 139-145), and `bm25_like` (lines 147-165), which
    returns the pair `(top_idx, scores[top_idx])` where `top_idx` is computed
    by Python's `max(range(N), key=lambda i: scores[i])`.
  * `src/app.py` : `tokenize` (lines 80-81), the index build (lines 83-90),
    and `bm25_like` (lines 92-108), which returns
    `sorted(list(enumerate(scores)), key=lambda x: x[1], reverse=True)`;
    `retrieve_answer` (lines 185-192) takes `ranks[0]`.

Both variants share the identical arithmetic for the per-term, per-document
score contribution, so the scoring core below is shared.  Scores are modelled
as real numbers (Python floats are used only through `+`, `*`, `/` and
`math.log` here).  Machine-word effects play no role.
-/

namespace ChatNot

/-- One character of a term: the regex class `[a-z0-9]` from
`re.findall(r"[a-z0-9]+", text.lower())`. -/
def isTermChar (c : Char) : Bool :=
  (('a' ≤ c) && (c ≤ 'z')) || (('0' ≤ c) && (c ≤ '9'))

/-- Maximal-run extraction of `re.findall(r"[a-z0-9]+", s)`: scan the
character list, accumulating the current run (in reverse) in `acc`, emitting
it when a non-matching character or the end of the input is reached. -/
def tokenizeAux : List Char → List Char → List String
  | [], [] => []
  | [], acc => [String.mk acc.reverse]
  | c :: cs, acc =>
    if isTermChar c then
      tokenizeAux cs (c :: acc)
    else
      match acc with
      | [] => tokenizeAux cs []
      | _ :: _ => String.mk acc.reverse :: tokenizeAux cs []

/-- `tokenize` of both `src/Chat_Not.py` line 135 and `src/app.py` line 80:
`re.findall(r"[a-z0-9]+", text.lower())`.  `Char.toLower` models Python
`str.lower` (they agree on the ASCII inputs used throughout the corpus). -/
def tokenize (text : String) : List String :=
  tokenizeAux (text.data.map Char.toLower) []

/-- A knowledge-base entry: the dicts `{"q": ..., "a": ...}` of `KB`. -/
structure Doc where
  q : String
  a : String
deriving DecidableEq

/-- Token sequence of one entry: `tokenize(item["q"] + " " + item["a"])`
(`src/Chat_Not.py` line 142; `src/app.py` lines 86-87 lowercase first, which
is idempotent here since `tokenize` lowercases anyway). -/
def docTokens (d : Doc) : List String :=
  tokenize (d.q ++ " " ++ d.a)

/-- The `DOCS` list built by the module-level loop over `KB`. -/
def docsOf (kb : List Doc) : List (List String) :=
  kb.map docTokens

/-- Document frequency `VOCAB.get(t, 0)`: the build loop adds 1 to `VOCAB[t]`
once per document whose token set contains `t`, so the final value is the
number of documents containing `t` at least once. -/
def df (docs : List (List String)) (t : String) : Nat :=
  (docs.filter (fun d => decide (t ∈ d))).length

/-- The constant `k1 = 1.5` of `bm25_like`. -/
def k1 : ℝ := 1.5

/-- The constant `b = 0.75` of `bm25_like`. -/
def b : ℝ := 0.75

/-- `avgdl = sum(len(d) for d in DOCS) / N`. -/
noncomputable def avgdl (docs : List (List String)) : ℝ :=
  ((docs.map List.length).sum : ℝ) / (docs.length : ℝ)

/-- `idf = math.log((N - n_qi + 0.5) / (n_qi + 0.5) + 1.0)`.  The Python
subtraction `N - n_qi` is integer subtraction, modelled by subtraction in ℝ
after casting. -/
noncomputable def idf (N n : Nat) : ℝ :=
  Real.log (((N : ℝ) - (n : ℝ) + 0.5) / ((n : ℝ) + 0.5) + 1.0)

/-- The per-term denominator `denom = f + k1 * (1 - b + b * (dl / avgdl))`
(`src/Chat_Not.py` line 162; `src/app.py` line 105). -/
noncomputable def denom (f dl a : ℝ) : ℝ :=
  f + k1 * (1 - b + b * (dl / a))

/-- Contribution of one query term `t` to one document's score: the body of
the inner loop of `bm25_like`.  When `VOCAB.get(qi, 0) == 0` the term is
skipped (`continue`), contributing 0.  Otherwise the contribution is
`idf * (f * (k1 + 1)) / (denom if denom else 1.0)` — both variants replace a
zero denominator by 1.  Note the division `dl / avgdl` is only ever reached
when `df docs t ≠ 0`, in which case some document is non-empty and
`avgdl > 0`, so the Python code never divides by a zero `avgdl` either. -/
noncomputable def termScore (docs : List (List String)) (doc : List String)
    (t : String) : ℝ :=
  let n := df docs t
  if n = 0 then 0
  else
    let f : ℝ := (doc.count t : ℝ)
    let dl : ℝ := (doc.length : ℝ)
    let den := denom f dl (avgdl docs)
    idf docs.length n * (f * (k1 + 1)) / (if den = 0 then 1 else den)

/-- Final accumulated score of one document: the outer loop runs over
`set(q_terms)` and accumulates `termScore` into `scores[idx]`.  Python's set
iteration order is unspecified; since real addition is commutative the total
is independent of it, and we sum over the canonical duplicate-free list
`(tokenize query).dedup`. -/
noncomputable def docScore (docs : List (List String)) (doc : List String)
    (query : String) : ℝ :=
  (((tokenize query).dedup).map (termScore docs doc)).sum

/-- The final `scores` array of `bm25_like`, one entry per document. -/
noncomputable def scoresList (docs : List (List String)) (query : String) :
    List ℝ :=
  docs.map (fun d => docScore docs d query)

/-- Left-to-right scan of Python's `max(range(N), key=...)`: `best` is the
index of the current best value `bv`, and a later element replaces it only
when strictly greater, so the first maximal index wins. -/
noncomputable def maxFrom : List ℝ → Nat → Nat → ℝ → Nat
  | [], _, best, _ => best
  | x :: xs, i, best, bv =>
    if bv < x then maxFrom xs (i + 1) i x else maxFrom xs (i + 1) best bv

/-- `top_idx = max(range(N), key=lambda i: scores[i])`
(`src/Chat_Not.py` line 164). -/
noncomputable def pyArgmax : List ℝ → Nat
  | [] => 0
  | x :: xs => maxFrom xs 1 0 x

/-- `bm25_like` of `src/Chat_Not.py` (lines 147-165): guards the empty corpus
with `if N == 0: return 0, 0.0`, otherwise returns
`(top_idx, scores[top_idx])`. -/
noncomputable def bm25_like (kb : List Doc) (query : String) : Nat × ℝ :=
  let docs := docsOf kb
  if docs.length = 0 then (0, 0)
  else
    let s := scoresList docs query
    let i := pyArgmax s
    (i, s.getD i 0)

/-- Stable descending insertion: a new element (later in the original order)
goes after every element with a score ≥ its own. -/
noncomputable def insertDesc (x : Nat × ℝ) : List (Nat × ℝ) → List (Nat × ℝ)
  | [] => [x]
  | y :: ys => if y.2 ≤ x.2 then x :: y :: ys else y :: insertDesc x ys

/-- Stable sort by descending score: models Python's
`sorted(..., key=lambda x: x[1], reverse=True)`, which is stable (equal keys
keep their original relative order). -/
noncomputable def sortDesc : List (Nat × ℝ) → List (Nat × ℝ)
  | [] => []
  | x :: xs => insertDesc x (sortDesc xs)

/-- `bm25_like` of `src/app.py` (lines 92-108): it performs no emptiness
check, and its first statement `avgdl = sum(len(d) for d in DOCS) / N`
raises `ZeroDivisionError` when `N == 0`; the raise is modelled by `none`.
Otherwise it returns the stably sorted `(index, score)` list. -/
noncomputable def bm25_like_ranked (kb : List Doc) (query : String) :
    Option (List (Nat × ℝ)) :=
  let docs := docsOf kb
  if docs.length = 0 then none
  else some (sortDesc ((scoresList docs query).enum))

/-- The `top_idx, _ = ranks[0]` step of `retrieve_answer`
(`src/app.py` lines 185-188), keeping the whole pair. -/
noncomputable def retrieve_top (kb : List Doc) (query : String) :
    Option (Nat × ℝ) :=
  (bm25_like_ranked kb query).map (fun l => l.headI)

/-- Corpus from the regression scenario of the specification: the two
entries used by the concrete test cases below. -/
def kbW : List Doc :=
  [⟨"Powder factor", "Powder Factor (PF) = charge/volume"⟩,
   ⟨"Stemming", "Stemming confines gases"⟩]

/-- First pair attaining the maximal score when scanning left to right
(earlier pairs win ties). -/
noncomputable def fstMaxPair : List (Nat × ℝ) → Nat × ℝ
  | [] => (0, 0)
  | [p] => p
  | p :: q :: r =>
    if (fstMaxPair (q :: r)).2 ≤ p.2 then p else fstMaxPair (q :: r)

/-- The index `i` is the best-match index for the score list `s`: in range,
attaining the maximum, and strictly above every earlier index (equivalently,
the smallest index attaining the maximum). -/
def IsBestIdx (s : List ℝ) (i : Nat) : Prop :=
  i < s.length ∧ (∀ j, j < s.length → s.getD j 0 ≤ s.getD i 0) ∧
    (∀ j, j < i → s.getD j 0 < s.getD i 0)

end ChatNot

namespace ChatNot

/-! ### Helper lemmas about list indexing -/

theorem getD_mem_of_lt (l : List ℝ) (j : Nat) (h : j < l.length) :
    l.getD j 0 ∈ l := by
  induction l generalizing j with
  | nil => simp at h
  | cons x xs ih =>
    cases j with
    | zero => simp
    | succ j =>
      rw [List.getD_cons_succ]
      exact List.mem_cons_of_mem _ (ih j (by simpa using h))

/-! ### Specification of the left-to-right argmax scan -/

theorem maxFrom_cases (l : List ℝ) : ∀ (i best : Nat) (bv : ℝ),
    (maxFrom l i best bv = best ∧ ∀ y ∈ l, y ≤ bv) ∨
    (∃ k, k < l.length ∧ maxFrom l i best bv = i + k ∧ bv < l.getD k 0 ∧
      (∀ j, j < l.length → l.getD j 0 ≤ l.getD k 0) ∧
      (∀ j, j < k → l.getD j 0 < l.getD k 0)) := by
  induction l with
  | nil =>
    intro i best bv
    exact Or.inl ⟨rfl, by simp⟩
  | cons x xs ih =>
    intro i best bv
    by_cases hx : bv < x
    · rcases ih (i + 1) i x with ⟨heq, hall⟩ | ⟨k, hk, heq, hlt, hmax, hstrict⟩
      · refine Or.inr ⟨0, by simp, ?_, by simpa using hx, ?_, by omega⟩
        · simpa [maxFrom, hx] using heq
        · intro j hj
          cases j with
          | zero => simp
          | succ j =>
            rw [List.getD_cons_succ, List.getD_cons_zero]
            exact hall _ (getD_mem_of_lt xs j (by simpa using hj))
      · refine Or.inr ⟨k + 1, by simpa using hk, ?_, ?_, ?_, ?_⟩
        · rw [show maxFrom (x :: xs) i best bv = maxFrom xs (i + 1) i x from
            by simp [maxFrom, hx], heq]
          omega
        · rw [List.getD_cons_succ]
          exact lt_trans hx hlt
        · intro j hj
          cases j with
          | zero =>
            rw [List.getD_cons_zero, List.getD_cons_succ]
            exact le_of_lt hlt
          | succ j =>
            rw [List.getD_cons_succ, List.getD_cons_succ]
            exact hmax j (by simpa using hj)
        · intro j hj
          cases j with
          | zero =>
            rw [List.getD_cons_zero, List.getD_cons_succ]
            exact hlt
          | succ j =>
            rw [List.getD_cons_succ, List.getD_cons_succ]
            exact hstrict j (by omega)
    · rcases ih (i + 1) best bv with ⟨heq, hall⟩ | ⟨k, hk, heq, hlt, hmax, hstrict⟩
      · refine Or.inl ⟨by simpa [maxFrom, hx] using heq, ?_⟩
        intro y hy
        rcases List.mem_cons.mp hy with rfl | hy
        · exact le_of_not_lt hx
        · exact hall _ hy
      · refine Or.inr ⟨k + 1, by simpa using hk, ?_, ?_, ?_, ?_⟩
        · rw [show maxFrom (x :: xs) i best bv = maxFrom xs (i + 1) best bv from
            by simp [maxFrom, hx], heq]
          omega
        · rw [List.getD_cons_succ]
          exact hlt
        · intro j hj
          cases j with
          | zero =>
            rw [List.getD_cons_zero, List.getD_cons_succ]
            exact le_trans (le_of_not_lt hx) (le_of_lt hlt)
          | succ j =>
            rw [List.getD_cons_succ, List.getD_cons_succ]
            exact hmax j (by simpa using hj)
        · intro j hj
          cases j with
          | zero =>
            rw [List.getD_cons_zero, List.getD_cons_succ]
            exact lt_of_le_of_lt (le_of_not_lt hx) hlt
          | succ j =>
            rw [List.getD_cons_succ, List.getD_cons_succ]
            exact hstrict j (by omega)

theorem pyArgmax_isBestIdx (s : List ℝ) (h : s ≠ []) :
    IsBestIdx s (pyArgmax s) := by
  cases s with
  | nil => exact absurd rfl h
  | cons x xs =>
    have hunfold : pyArgmax (x :: xs) = maxFrom xs 1 0 x := rfl
    rcases maxFrom_cases xs 1 0 x with ⟨heq, hall⟩ | ⟨k, hk, heq, hlt, hmax, hstrict⟩
    · rw [hunfold, heq]
      refine ⟨by simp, ?_, by omega⟩
      intro j hj
      cases j with
      | zero => simp
      | succ j =>
        rw [List.getD_cons_succ, List.getD_cons_zero]
        exact hall _ (getD_mem_of_lt xs j (by simpa using hj))
    · rw [hunfold, heq]
      have hk1 : 1 + k = k + 1 := by omega
      rw [hk1]
      refine ⟨by simpa using hk, ?_, ?_⟩
      · intro j hj
        cases j with
        | zero =>
          rw [List.getD_cons_zero, List.getD_cons_succ]
          exact le_of_lt hlt
        | succ j =>
          rw [List.getD_cons_succ, List.getD_cons_succ]
          exact hmax j (by simpa using hj)
      · intro j hj
        cases j with
        | zero =>
          rw [List.getD_cons_zero, List.getD_cons_succ]
          exact hlt
        | succ j =>
          rw [List.getD_cons_succ, List.getD_cons_succ]
          exact hstrict j (by omega)

theorem isBestIdx_unique (s : List ℝ) (i j : Nat) (hi : IsBestIdx s i)
    (hj : IsBestIdx s j) : i = j := by
  rcases lt_trichotomy i j with h | h | h
  · exact absurd (hi.2.1 j hj.1) (not_le_of_lt (hj.2.2 i h))
  · exact h
  · exact absurd (hj.2.1 i hi.1) (not_le_of_lt (hi.2.2 j h))

end ChatNot

namespace ChatNot

/-! ### Head of the stable descending sort -/

theorem insertDesc_ne_nil (x : Nat × ℝ) (l : List (Nat × ℝ)) :
    insertDesc x l ≠ [] := by
  cases l with
  | nil => simp [insertDesc]
  | cons y ys =>
    by_cases h : y.2 ≤ x.2 <;> simp [insertDesc, h]

theorem sortDesc_ne_nil (x : Nat × ℝ) (xs : List (Nat × ℝ)) :
    sortDesc (x :: xs) ≠ [] := by
  rw [show sortDesc (x :: xs) = insertDesc x (sortDesc xs) from rfl]
  exact insertDesc_ne_nil x (sortDesc xs)

theorem headI_insertDesc (x y : Nat × ℝ) (ys : List (Nat × ℝ)) :
    (insertDesc x (y :: ys)).headI = if y.2 ≤ x.2 then x else y := by
  by_cases h : y.2 ≤ x.2 <;> simp [insertDesc, h]

theorem headI_sortDesc (l : List (Nat × ℝ)) (h : l ≠ []) :
    (sortDesc l).headI = fstMaxPair l := by
  induction l with
  | nil => exact absurd rfl h
  | cons x xs ih =>
    cases xs with
    | nil => simp [sortDesc, insertDesc, fstMaxPair]
    | cons y ys =>
      obtain ⟨z, zs, hz⟩ :
          ∃ z zs, sortDesc (y :: ys) = z :: zs :=
        List.exists_cons_of_ne_nil (sortDesc_ne_nil y ys)
      have hz' : (sortDesc (y :: ys)).headI = fstMaxPair (y :: ys) :=
        ih (by simp)
      rw [show sortDesc (x :: y :: ys) = insertDesc x (sortDesc (y :: ys))
        from rfl, hz, headI_insertDesc]
      rw [hz, List.headI_cons] at hz'
      rw [show fstMaxPair (x :: y :: ys) =
        if (fstMaxPair (y :: ys)).2 ≤ x.2 then x else fstMaxPair (y :: ys)
        from rfl, ← hz', hz']

theorem fstMaxPair_enumFrom (s : List ℝ) : ∀ i : Nat, s ≠ [] →
    ∃ k, k < s.length ∧ fstMaxPair (s.enumFrom i) = (i + k, s.getD k 0) ∧
      (∀ j, j < s.length → s.getD j 0 ≤ s.getD k 0) ∧
      (∀ j, j < k → s.getD j 0 < s.getD k 0) := by
  induction s with
  | nil => intro i h; exact absurd rfl h
  | cons x xs ih =>
    intro i _
    cases xs with
    | nil =>
      refine ⟨0, by simp, by simp [fstMaxPair], ?_, by omega⟩
      intro j hj
      have hj' : j < 1 := by simpa using hj
      have hj0 : j = 0 := by omega
      subst hj0
      simp
    | cons y ys =>
      obtain ⟨k, hk, heq, hmax, hstrict⟩ := ih (i + 1) (by simp)
      have hunfold : fstMaxPair ((x :: y :: ys).enumFrom i) =
          if (fstMaxPair ((y :: ys).enumFrom (i + 1))).2 ≤ x then (i, x)
          else fstMaxPair ((y :: ys).enumFrom (i + 1)) := rfl
      by_cases hcmp : (fstMaxPair ((y :: ys).enumFrom (i + 1))).2 ≤ x
      · refine ⟨0, by simp, ?_, ?_, by omega⟩
        · rw [hunfold, if_pos hcmp]
          simp
        · intro j hj
          cases j with
          | zero => simp
          | succ j =>
            rw [List.getD_cons_succ, List.getD_cons_zero]
            rw [heq] at hcmp
            exact le_trans (hmax j (by simpa using hj)) hcmp
      · refine ⟨k + 1, by simpa using hk, ?_, ?_, ?_⟩
        · rw [hunfold, if_neg hcmp, heq, List.getD_cons_succ]
          refine Prod.ext ?_ rfl
          simp; omega
        · intro j hj
          rw [heq] at hcmp
          push_neg at hcmp
          cases j with
          | zero =>
            rw [List.getD_cons_zero, List.getD_cons_succ]
            exact le_of_lt hcmp
          | succ j =>
            rw [List.getD_cons_succ, List.getD_cons_succ]
            exact hmax j (by simpa using hj)
        · intro j hj
          rw [heq] at hcmp
          push_neg at hcmp
          cases j with
          | zero =>
            rw [List.getD_cons_zero, List.getD_cons_succ]
            exact hcmp
          | succ j =>
            rw [List.getD_cons_succ, List.getD_cons_succ]
            exact hstrict j (by omega)

theorem headI_sortDesc_enum (s : List ℝ) (h : s ≠ []) :
    ∃ k, (sortDesc s.enum).headI = (k, s.getD k 0) ∧ IsBestIdx s k := by
  obtain ⟨k, hk, heq, hmax, hstrict⟩ := fstMaxPair_enumFrom s 0 h
  have henum : s.enum ≠ [] := by
    cases s with
    | nil => exact absurd rfl h
    | cons x xs => simp [List.enum]
  refine ⟨k, ?_, hk, hmax, hstrict⟩
  rw [headI_sortDesc _ henum, show s.enum = s.enumFrom 0 from rfl, heq]
  simp

end ChatNot

namespace ChatNot

/-! ### Arithmetic facts about the scoring formula -/

theorem df_le_length (docs : List (List String)) (t : String) :
    df docs t ≤ docs.length :=
  List.length_filter_le _ _

theorem avgdl_pos_of_df_ne_zero (docs : List (List String)) (t : String)
    (h : df docs t ≠ 0) : 0 < avgdl docs := by
  obtain ⟨d, hd⟩ : ∃ d, d ∈ docs.filter (fun d => decide (t ∈ d)) :=
    List.exists_mem_of_length_pos (Nat.pos_of_ne_zero h)
  obtain ⟨hdocs, htd⟩ := List.mem_filter.mp hd
  have htd' : t ∈ d := of_decide_eq_true htd
  have hdlen : 1 ≤ d.length := List.length_pos.mpr (List.ne_nil_of_mem htd')
  have hsum : 1 ≤ (docs.map List.length).sum :=
    le_trans hdlen
      (List.single_le_sum (fun _ _ => Nat.zero_le _) _
        (List.mem_map_of_mem List.length hdocs))
  have hN : 0 < docs.length := List.length_pos.mpr (List.ne_nil_of_mem hdocs)
  rw [avgdl]
  have h1 : (0 : ℝ) < ((docs.map List.length).sum : ℝ) := by
    exact_mod_cast lt_of_lt_of_le Nat.zero_lt_one hsum
  have h2 : (0 : ℝ) < (docs.length : ℝ) := by exact_mod_cast hN
  exact div_pos h1 h2

theorem idf_nonneg (N n : Nat) (hN : 1 ≤ N) (hn : 1 ≤ n) (hnN : n ≤ N) :
    0 ≤ idf N n := by
  rw [idf]
  apply Real.log_nonneg
  have hc : (n : ℝ) ≤ (N : ℝ) := by exact_mod_cast hnN
  have hnum : (0 : ℝ) ≤ (N : ℝ) - (n : ℝ) + 0.5 := by linarith
  have hden : (0 : ℝ) < (n : ℝ) + 0.5 := by positivity
  have hq : (0 : ℝ) ≤ ((N : ℝ) - (n : ℝ) + 0.5) / ((n : ℝ) + 0.5) :=
    div_nonneg hnum hden.le
  linarith

theorem denom_pos (f dl a : ℝ) (hf : 0 ≤ f) (hdl : 0 ≤ dl) (ha : 0 < a) :
    0 < denom f dl a := by
  have hq : 0 ≤ dl / a := div_nonneg hdl ha.le
  rw [denom, k1, b]
  linarith

theorem termScore_nonneg (docs : List (List String)) (doc : List String)
    (t : String) : 0 ≤ termScore docs doc t := by
  by_cases h : df docs t = 0
  · simp [termScore, h]
  · have hN : 1 ≤ docs.length :=
      le_trans (Nat.one_le_iff_ne_zero.mpr h) (df_le_length docs t)
    have hidf : 0 ≤ idf docs.length (df docs t) :=
      idf_nonneg _ _ hN (Nat.one_le_iff_ne_zero.mpr h) (df_le_length docs t)
    have havg : 0 < avgdl docs := avgdl_pos_of_df_ne_zero docs t h
    have hden : 0 < denom ((doc.count t : ℝ)) ((doc.length : ℝ)) (avgdl docs) :=
      denom_pos _ _ _ (Nat.cast_nonneg _) (Nat.cast_nonneg _) havg
    rw [termScore]
    simp only [h, if_false, if_neg (ne_of_gt hden)]
    refine div_nonneg (mul_nonneg hidf (mul_nonneg (Nat.cast_nonneg _) ?_))
      hden.le
    rw [k1]; norm_num

theorem docScore_nonneg (docs : List (List String)) (doc : List String)
    (query : String) : 0 ≤ docScore docs doc query := by
  rw [docScore]
  apply List.sum_nonneg
  intro x hx
  obtain ⟨t, _, rfl⟩ := List.mem_map.mp hx
  exact termScore_nonneg docs doc t

theorem getD_nonneg_of_all (l : List ℝ) (h : ∀ x ∈ l, 0 ≤ x) (j : Nat) :
    0 ≤ l.getD j 0 := by
  by_cases hj : j < l.length
  · exact h _ (getD_mem_of_lt l j hj)
  · rw [List.getD_eq_default _ _ (le_of_not_lt hj)]

/-! ### Unfolding equations for the two top-level entry points -/

theorem scoresList_length (docs : List (List String)) (query : String) :
    (scoresList docs query).length = docs.length := by
  simp [scoresList]

theorem docsOf_length (kb : List Doc) : (docsOf kb).length = kb.length := by
  simp [docsOf]

theorem bm25_like_of_ne_nil (kb : List Doc) (query : String) (h : kb ≠ []) :
    bm25_like kb query =
      (pyArgmax (scoresList (docsOf kb) query),
       (scoresList (docsOf kb) query).getD
         (pyArgmax (scoresList (docsOf kb) query)) 0) := by
  have hlen : ¬(docsOf kb).length = 0 := by
    rw [docsOf_length]
    simpa using h
  rw [bm25_like]
  simp only [hlen, if_false]

theorem bm25_like_ranked_of_ne_nil (kb : List Doc) (query : String)
    (h : kb ≠ []) :
    bm25_like_ranked kb query =
      some (sortDesc ((scoresList (docsOf kb) query).enum)) := by
  have hlen : ¬(docsOf kb).length = 0 := by
    rw [docsOf_length]
    simpa using h
  rw [bm25_like_ranked]
  simp only [hlen, if_false]

theorem scoresList_ne_nil (kb : List Doc) (query : String) (h : kb ≠ []) :
    scoresList (docsOf kb) query ≠ [] := by
  intro hs
  apply h
  have := congrArg List.length hs
  rw [scoresList_length, docsOf_length] at this
  exact List.eq_nil_of_length_eq_zero (by simpa using this)

end ChatNot

namespace ChatNot

/-! ### Queries whose terms are all absent from the corpus -/

theorem termScore_of_df_zero (docs : List (List String)) (doc : List String)
    (t : String) (h : df docs t = 0) : termScore docs doc t = 0 := by
  simp [termScore, h]

theorem docScore_eq_zero_of_unknown (docs : List (List String))
    (doc : List String) (query : String)
    (hq : ∀ t ∈ tokenize query, df docs t = 0) :
    docScore docs doc query = 0 := by
  rw [docScore]
  apply List.sum_eq_zero
  intro x hx
  obtain ⟨t, ht, rfl⟩ := List.mem_map.mp hx
  exact termScore_of_df_zero docs doc t (hq t (List.mem_dedup.mp ht))

theorem getD_eq_zero_of_all (l : List ℝ) (h : ∀ x ∈ l, x = 0) (j : Nat) :
    l.getD j 0 = 0 := by
  by_cases hj : j < l.length
  · exact h _ (getD_mem_of_lt l j hj)
  · rw [List.getD_eq_default _ _ (le_of_not_lt hj)]

theorem scoresList_all_zero (kb : List Doc) (query : String)
    (hq : ∀ t ∈ tokenize query, df (docsOf kb) t = 0) :
    ∀ x ∈ scoresList (docsOf kb) query, x = 0 := by
  intro x hx
  obtain ⟨doc, _, rfl⟩ := List.mem_map.mp hx
  exact docScore_eq_zero_of_unknown _ _ _ hq

theorem pyArgmax_zero_of_uniform (x : ℝ) (xs : List ℝ)
    (h : ∀ y ∈ xs, y ≤ x) : pyArgmax (x :: xs) = 0 := by
  rcases maxFrom_cases xs 1 0 x with ⟨heq, _⟩ | ⟨k, hk, _, hlt, _, _⟩
  · exact heq
  · exact absurd (h _ (getD_mem_of_lt xs k hk)) (not_le_of_lt hlt)

theorem bestIdx_zero_of_all_zero (s : List ℝ) (hne : s ≠ [])
    (hall : ∀ x ∈ s, x = 0) (k : Nat) (hk : IsBestIdx s k) : k = 0 := by
  by_contra h0
  have hpos : 0 < k := Nat.pos_of_ne_zero h0
  have h00 : s.getD 0 0 = 0 :=
    hall _ (getD_mem_of_lt s 0 (List.length_pos.mpr hne))
  have hkk : s.getD k 0 = 0 := hall _ (getD_mem_of_lt s k hk.1)
  have hlt := hk.2.2 0 hpos
  rw [h00, hkk] at hlt
  exact lt_irrefl 0 hlt

theorem bm25_like_unknown (kb : List Doc) (query : String) (h : kb ≠ [])
    (hq : ∀ t ∈ tokenize query, df (docsOf kb) t = 0) :
    bm25_like kb query = (0, 0) := by
  rw [bm25_like_of_ne_nil kb query h]
  have hall := scoresList_all_zero kb query hq
  cases hs : scoresList (docsOf kb) query with
  | nil => exact absurd hs (scoresList_ne_nil kb query h)
  | cons z zs =>
    rw [hs] at hall
    have hz : z = 0 := hall z (List.mem_cons_self z zs)
    have harg : pyArgmax (z :: zs) = 0 :=
      pyArgmax_zero_of_uniform z zs
        (fun y hy => (hall y (List.mem_cons_of_mem z hy)).le.trans hz.ge)
    rw [harg, List.getD_cons_zero, hz]

theorem retrieve_top_unknown (kb : List Doc) (query : String) (h : kb ≠ [])
    (hq : ∀ t ∈ tokenize query, df (docsOf kb) t = 0) :
    retrieve_top kb query = some (0, 0) := by
  rw [retrieve_top, bm25_like_ranked_of_ne_nil kb query h, Option.map_some']
  have hsne := scoresList_ne_nil kb query h
  obtain ⟨k, hhead, hbest⟩ := headI_sortDesc_enum _ hsne
  have hall := scoresList_all_zero kb query hq
  have hk0 : k = 0 := bestIdx_zero_of_all_zero _ hsne hall k hbest
  rw [hhead, hk0, getD_eq_zero_of_all _ hall 0]

end ChatNot

namespace ChatNot

/-! ### Last shared helpers -/

theorem pyArgmax_pair (x y : ℝ) (h : y ≤ x) : pyArgmax [x, y] = 0 := by
  simp [pyArgmax, maxFrom, not_lt.mpr h]

theorem dedup_toFinset (l : List String) : l.dedup.toFinset = l.toFinset := by
  ext t
  simp [List.mem_toFinset, List.mem_dedup]

theorem docScore_eq_of_toFinset_eq (docs : List (List String))
    (doc : List String) (q1 q2 : String)
    (hset : (tokenize q1).toFinset = (tokenize q2).toFinset) :
    docScore docs doc q1 = docScore docs doc q2 := by
  have hperm : (tokenize q1).dedup.Perm (tokenize q2).dedup :=
    List.perm_of_nodup_nodup_toFinset_eq (List.nodup_dedup _)
      (List.nodup_dedup _)
      (by rw [dedup_toFinset, dedup_toFinset, hset])
  rw [docScore, docScore]
  exact (hperm.map (termScore docs doc)).sum_eq

theorem retrieve_top_of_ne_nil (kb : List Doc) (query : String) (h : kb ≠ []) :
    retrieve_top kb query =
      some ((sortDesc ((scoresList (docsOf kb) query).enum)).headI) := by
  rw [retrieve_top, bm25_like_ranked_of_ne_nil kb query h, Option.map_some']

/-! ### The claims -/

/-- Claim C1: for every non-empty corpus and every query, `bm25_like` of
`src/Chat_Not.py` returns an index attaining the maximum accumulated score,
strictly above every smaller index on ties (so the smallest maximising index),
together with that maximal score; and `retrieve_answer`'s `ranks[0]` from
`src/app.py` picks exactly the same pair. -/
theorem claim_C1_top1_retrieval (kb : List Doc) (query : String)
    (h : kb ≠ []) :
    IsBestIdx (scoresList (docsOf kb) query) (bm25_like kb query).1 ∧
    (bm25_like kb query).2 =
      (scoresList (docsOf kb) query).getD (bm25_like kb query).1 0 ∧
    retrieve_top kb query = some (bm25_like kb query) := by
  have hs := scoresList_ne_nil kb query h
  rw [bm25_like_of_ne_nil kb query h]
  refine ⟨pyArgmax_isBestIdx _ hs, rfl, ?_⟩
  rw [retrieve_top_of_ne_nil kb query h]
  obtain ⟨k, hhead, hbest⟩ := headI_sortDesc_enum _ hs
  have hk : k = pyArgmax (scoresList (docsOf kb) query) :=
    isBestIdx_unique _ _ _ hbest (pyArgmax_isBestIdx _ hs)
  rw [hhead, hk]

/-- Witness for C1 at the two-document corpus `kbW` and query `"powder"`. -/
theorem claim_C1_top1_retrieval_witness :
    kbW ≠ [] ∧
    (IsBestIdx (scoresList (docsOf kbW) "powder") (bm25_like kbW "powder").1 ∧
     (bm25_like kbW "powder").2 =
       (scoresList (docsOf kbW) "powder").getD (bm25_like kbW "powder").1 0 ∧
     retrieve_top kbW "powder" = some (bm25_like kbW "powder")) :=
  ⟨by simp [kbW], claim_C1_top1_retrieval kbW "powder" (by simp [kbW])⟩

/-- Claim C2 counterexample: on the empty corpus, `src/app.py`'s `bm25_like`
divides by zero (`ZeroDivisionError`, modelled `none`) instead of
short-circuiting to a defined empty result; and `src/Chat_Not.py`'s variant
returns the bare value `(0, 0.0)`, which is identical to its answer for a
non-empty corpus queried with a term it does not contain, so no `EmptyCorpus`
condition is reported to the caller. -/
theorem claim_C2_counterexample :
    bm25_like_ranked [] "powder" = none ∧
    bm25_like ([] : List Doc) "powder" = (0, 0) ∧
    bm25_like [⟨"Stemming", "Stemming confines gases"⟩] "powder" = (0, 0) :=
  ⟨rfl, rfl,
    bm25_like_unknown [⟨"Stemming", "Stemming confines gases"⟩] "powder"
      (by simp) (by decide)⟩

/-- Claim C2 amended: when scoring is invoked against an empty corpus,
`src/Chat_Not.py`'s `bm25_like` short-circuits to the sentinel `(0, 0.0)`
without raising, but that sentinel is indistinguishable from a genuine
zero-score answer at index 0, so the `EmptyCorpus` condition is not reported;
`src/app.py`'s `bm25_like` performs no check at all and raises
`ZeroDivisionError` (dividing by the zero document count). -/
theorem claim_C2_empty_corpus (query : String) :
    bm25_like ([] : List Doc) query = (0, 0) ∧
    bm25_like_ranked [] query = none :=
  ⟨rfl, rfl⟩

/-- Claim C3: for a non-empty corpus and a query all of whose tokens are
absent from the document-frequency map (the empty query included), no error
occurs, every document scores 0.0, and both variants return document
index 0 (with score 0). -/
theorem claim_C3_unknown_terms (kb : List Doc) (query : String) (h : kb ≠ [])
    (hq : ∀ t ∈ tokenize query, df (docsOf kb) t = 0) :
    (∀ j, (scoresList (docsOf kb) query).getD j 0 = 0) ∧
    bm25_like kb query = (0, 0) ∧
    retrieve_top kb query = some (0, 0) :=
  ⟨getD_eq_zero_of_all _ (scoresList_all_zero kb query hq),
   bm25_like_unknown kb query h hq,
   retrieve_top_unknown kb query h hq⟩

/-- Witness for C3 at `kbW` with a query of terms absent from the corpus. -/
theorem claim_C3_unknown_terms_witness :
    (kbW ≠ [] ∧ ∀ t ∈ tokenize "xyzzy quux", df (docsOf kbW) t = 0) ∧
    ((∀ j, (scoresList (docsOf kbW) "xyzzy quux").getD j 0 = 0) ∧
     bm25_like kbW "xyzzy quux" = (0, 0) ∧
     retrieve_top kbW "xyzzy quux" = some (0, 0)) :=
  ⟨⟨by simp [kbW], by decide⟩,
   claim_C3_unknown_terms kbW "xyzzy quux" (by simp [kbW]) (by decide)⟩

/-- Claim C4: the tokenizer maps `"AbC 123!@# def"` to exactly
`["abc", "123", "def"]`, the empty string to the empty list, and is a total
function returning a token list on every input. -/
theorem claim_C4_tokenize_contract :
    tokenize "AbC 123!@# def" = ["abc", "123", "def"] ∧
    tokenize "" = [] ∧
    ∀ s : String, ∃ ts : List String, tokenize s = ts :=
  ⟨by decide, rfl, fun s => ⟨tokenize s, rfl⟩⟩

/-- Claim C5: with `N ≥ 1` documents and a term of document frequency
`1 ≤ n ≤ N`, the smoothed inverse document frequency
`ln((N - n + 0.5) / (n + 0.5) + 1.0)` computed by the scorer is
non-negative. -/
theorem claim_C5_idf_nonneg (N n : Nat) (hN : 1 ≤ N) (hn : 1 ≤ n)
    (hnN : n ≤ N) : 0 ≤ idf N n :=
  idf_nonneg N n hN hn hnN

/-- Witness for C5 at `N = 2`, `n = 1`. -/
theorem claim_C5_idf_nonneg_witness :
    (1 ≤ 2 ∧ 1 ≤ 1 ∧ 1 ≤ 2) ∧ 0 ≤ idf 2 1 :=
  ⟨⟨by norm_num, by norm_num, by norm_num⟩,
   claim_C5_idf_nonneg 2 1 (by norm_num) (by norm_num) (by norm_num)⟩

/-- Claim C6: scoring depends only on the set of distinct query terms — two
queries whose tokenizations have equal term sets produce identical score
lists on every non-empty corpus. -/
theorem claim_C6_term_set_semantics (kb : List Doc) (q1 q2 : String)
    (h : kb ≠ []) (hset : (tokenize q1).toFinset = (tokenize q2).toFinset) :
    scoresList (docsOf kb) q1 = scoresList (docsOf kb) q2 := by
  rw [scoresList, scoresList]
  have hfun : (fun d => docScore (docsOf kb) d q1) =
      (fun d => docScore (docsOf kb) d q2) :=
    funext fun d => docScore_eq_of_toFinset_eq (docsOf kb) d q1 q2 hset
  rw [hfun]

/-- Witness for C6: a query with a repeated term versus the deduplicated
query. -/
theorem claim_C6_term_set_semantics_witness :
    (kbW ≠ [] ∧ (tokenize "powder powder factor").toFinset =
      (tokenize "factor powder").toFinset) ∧
    scoresList (docsOf kbW) "powder powder factor" =
      scoresList (docsOf kbW) "factor powder" :=
  ⟨⟨by simp [kbW], by decide⟩,
   claim_C6_term_set_semantics kbW "powder powder factor" "factor powder"
     (by simp [kbW]) (by decide)⟩

/-- Claim C7: on a non-empty corpus with positive average document length the
per-term denominator `f + k1 * (1 - b + b * (dl / avgdl))` is strictly
positive for every document and term (term frequency and document length
being natural-number counts), so the `denom if denom else 1.0` fallback
collapses to `denom` and the score division never divides by zero. -/
theorem claim_C7_denom_positive (kb : List Doc) (doc : List String)
    (t : String) (hne : kb ≠ []) (hpos : 0 < avgdl (docsOf kb)) :
    0 < denom ((doc.count t : ℝ)) ((doc.length : ℝ)) (avgdl (docsOf kb)) ∧
    (if denom ((doc.count t : ℝ)) ((doc.length : ℝ)) (avgdl (docsOf kb)) = 0
     then (1 : ℝ)
     else denom ((doc.count t : ℝ)) ((doc.length : ℝ)) (avgdl (docsOf kb))) =
      denom ((doc.count t : ℝ)) ((doc.length : ℝ)) (avgdl (docsOf kb)) := by
  have hd := denom_pos ((doc.count t : ℝ)) ((doc.length : ℝ))
    (avgdl (docsOf kb)) (Nat.cast_nonneg _) (Nat.cast_nonneg _) hpos
  exact ⟨hd, if_neg (ne_of_gt hd)⟩

/-- Witness for C7 at `kbW` (average document length 11/2) with the first
document's token list and the term `"powder"`. -/
theorem claim_C7_denom_positive_witness :
    (kbW ≠ [] ∧ 0 < avgdl (docsOf kbW)) ∧
    (0 < denom ((List.count "powder"
        ["powder", "factor", "powder", "factor", "pf", "charge", "volume"]
        : ℝ))
      ((["powder", "factor", "powder", "factor", "pf", "charge",
         "volume"].length : ℝ)) (avgdl (docsOf kbW)) ∧
     (if denom ((List.count "powder"
          ["powder", "factor", "powder", "factor", "pf", "charge", "volume"]
          : ℝ))
        ((["powder", "factor", "powder", "factor", "pf", "charge",
           "volume"].length : ℝ)) (avgdl (docsOf kbW)) = 0
      then (1 : ℝ)
      else denom ((List.count "powder"
          ["powder", "factor", "powder", "factor", "pf", "charge", "volume"]
          : ℝ))
        ((["powder", "factor", "powder", "factor", "pf", "charge",
           "volume"].length : ℝ)) (avgdl (docsOf kbW))) =
       denom ((List.count "powder"
          ["powder", "factor", "powder", "factor", "pf", "charge", "volume"]
          : ℝ))
        ((["powder", "factor", "powder", "factor", "pf", "charge",
           "volume"].length : ℝ)) (avgdl (docsOf kbW))) := by
  have hpos : 0 < avgdl (docsOf kbW) := by
    rw [avgdl, show ((docsOf kbW).map List.length).sum = 11 from by decide,
      show (docsOf kbW).length = 2 from by decide]
    norm_num
  exact ⟨⟨by simp [kbW], hpos⟩,
    claim_C7_denom_positive kbW
      ["powder", "factor", "powder", "factor", "pf", "charge", "volume"]
      "powder" (by simp [kbW]) hpos⟩

/-- Claim C8: retrieval is deterministic — `bm25_like` is a pure function of
the corpus and the query, and the accumulated score does not depend on the
order in which Python's `set(q_terms)` happens to enumerate the distinct
query terms: any enumeration `ts` of the distinct terms yields the same
total. -/
theorem claim_C8_deterministic (kb : List Doc) (query : String)
    (ts : List String) (hperm : ts.Perm (tokenize query).dedup) :
    bm25_like kb query = bm25_like kb query ∧
    bm25_like_ranked kb query = bm25_like_ranked kb query ∧
    ∀ doc, (ts.map (termScore (docsOf kb) doc)).sum =
      docScore (docsOf kb) doc query := by
  refine ⟨rfl, rfl, fun doc => ?_⟩
  rw [docScore]
  exact (hperm.map (termScore (docsOf kb) doc)).sum_eq

/-- Witness for C8: the reversed enumeration of the distinct terms of
`"powder factor"`. -/
theorem claim_C8_deterministic_witness :
    (["factor", "powder"].Perm (tokenize "powder factor").dedup) ∧
    (bm25_like kbW "powder factor" = bm25_like kbW "powder factor" ∧
     bm25_like_ranked kbW "powder factor" =
       bm25_like_ranked kbW "powder factor" ∧
     ∀ doc, ((["factor", "powder"] : List String).map
         (termScore (docsOf kbW) doc)).sum =
       docScore (docsOf kbW) doc "powder factor") :=
  ⟨by decide,
   claim_C8_deterministic kbW "powder factor" ["factor", "powder"]
     (by decide)⟩

/-- Claim C9: on the two-entry corpus `kbW` (Powder factor / Stemming),
the query `"powder factor"` gives document 0 a strictly higher score than
document 1, and both variants rank document 0 first. -/
theorem claim_C9_regression :
    (scoresList (docsOf kbW) "powder factor").getD 1 0 <
      (scoresList (docsOf kbW) "powder factor").getD 0 0 ∧
    (bm25_like kbW "powder factor").1 = 0 ∧
    (retrieve_top kbW "powder factor").map Prod.fst = some 0 := by
  have hdocs : docsOf kbW =
      [["powder", "factor", "powder", "factor", "pf", "charge", "volume"],
       ["stemming", "stemming", "confines", "gases"]] := by decide
  have hdfp : df (docsOf kbW) "powder" = 1 := by decide
  have hdff : df (docsOf kbW) "factor" = 1 := by decide
  have h1 : docScore (docsOf kbW)
      ["stemming", "stemming", "confines", "gases"] "powder factor" = 0 := by
    rw [docScore,
      show (tokenize "powder factor").dedup = ["powder", "factor"]
      from by decide]
    simp only [List.map_cons, List.map_nil, List.sum_cons, List.sum_nil]
    rw [termScore, termScore]
    simp only [hdfp, hdff]
    rw [show List.count "powder"
        ["stemming", "stemming", "confines", "gases"] = 0 from by decide,
      show List.count "factor"
        ["stemming", "stemming", "confines", "gases"] = 0 from by decide]
    norm_num
  have h0 : 0 < docScore (docsOf kbW)
      ["powder", "factor", "powder", "factor", "pf", "charge", "volume"]
      "powder factor" := by
    have hN : (docsOf kbW).length = 2 := by decide
    have hidf : 0 < idf 2 1 := by
      rw [idf]
      apply Real.log_pos
      norm_num
    have hden : 0 < denom 2 7 (11 / 2) := by
      rw [denom, k1, b]; norm_num
    have havg : avgdl (docsOf kbW) = 11 / 2 := by
      rw [avgdl, show ((docsOf kbW).map List.length).sum = 11 from by decide,
        hN]
      norm_num
    rw [docScore,
      show (tokenize "powder factor").dedup = ["powder", "factor"]
      from by decide]
    simp only [List.map_cons, List.map_nil, List.sum_cons, List.sum_nil]
    rw [termScore, termScore]
    simp only [hdfp, hdff, hN]
    rw [show List.count "powder"
        ["powder", "factor", "powder", "factor", "pf", "charge", "volume"] = 2
      from by decide,
      show List.count "factor"
        ["powder", "factor", "powder", "factor", "pf", "charge", "volume"] = 2
      from by decide]
    norm_num [havg]
    rw [if_neg (ne_of_gt hden)]
    have hterm : 0 < idf 2 1 * (2 * (k1 + 1)) / denom 2 7 (11 / 2) := by
      apply div_pos
      · apply mul_pos hidf
        rw [k1]; norm_num
      · exact hden
    linarith
  have hs : scoresList (docsOf kbW) "powder factor" =
      [docScore (docsOf kbW)
        ["powder", "factor", "powder", "factor", "pf", "charge", "volume"]
        "powder factor",
       docScore (docsOf kbW)
        ["stemming", "stemming", "confines", "gases"] "powder factor"] := by
    have hmap := congrArg
      (List.map (fun d => docScore (docsOf kbW) d "powder factor")) hdocs
    rw [scoresList, hmap]
    simp only [List.map_cons, List.map_nil]
  have hlt : (scoresList (docsOf kbW) "powder factor").getD 1 0 <
      (scoresList (docsOf kbW) "powder factor").getD 0 0 := by
    rw [hs, List.getD_cons_succ, List.getD_cons_zero, List.getD_cons_zero, h1]
    exact h0
  have harg : pyArgmax (scoresList (docsOf kbW) "powder factor") = 0 := by
    rw [hs]
    exact pyArgmax_pair _ _ (by rw [h1]; exact h0.le)
  refine ⟨hlt, ?_, ?_⟩
  · rw [bm25_like_of_ne_nil kbW "powder factor" (by simp [kbW])]
    exact harg
  · rw [retrieve_top_of_ne_nil kbW "powder factor" (by simp [kbW])]
    obtain ⟨k, hhead, hbest⟩ :=
      headI_sortDesc_enum (scoresList (docsOf kbW) "powder factor")
        (scoresList_ne_nil kbW "powder factor" (by simp [kbW]))
    have hk : k = 0 := by
      have := isBestIdx_unique _ _ _ hbest
        (pyArgmax_isBestIdx _ (scoresList_ne_nil kbW "powder factor"
          (by simp [kbW])))
      rw [this, harg]
    rw [hhead, hk, Option.map_some']

/-- Claim C10: on every non-empty corpus every accumulated document score is
non-negative, and so is the score `bm25_like` returns next to its top
document. -/
theorem claim_C10_score_nonneg (kb : List Doc) (query : String)
    (h : kb ≠ []) :
    (∀ j, 0 ≤ (scoresList (docsOf kb) query).getD j 0) ∧
    0 ≤ (bm25_like kb query).2 := by
  have hall : ∀ x ∈ scoresList (docsOf kb) query, 0 ≤ x := by
    intro x hx
    obtain ⟨doc, _, rfl⟩ := List.mem_map.mp hx
    exact docScore_nonneg _ _ _
  refine ⟨fun j => getD_nonneg_of_all _ hall j, ?_⟩
  rw [bm25_like_of_ne_nil kb query h]
  exact getD_nonneg_of_all _ hall _

/-- Witness for C10 at `kbW` and the query `"powder factor"`. -/
theorem claim_C10_score_nonneg_witness :
    kbW ≠ [] ∧
    ((∀ j, 0 ≤ (scoresList (docsOf kbW) "powder factor").getD j 0) ∧
     0 ≤ (bm25_like kbW "powder factor").2) :=
  ⟨by simp [kbW],
   claim_C10_score_nonneg kbW "powder factor" (by simp [kbW])⟩

end ChatNot
